import Mathlib

/-!
Verification of the debounce/throttle wrappers in `src/util/all.ts` and the
hash helper in `src/mobile/hash.ts` of the `prelude` utility repository.

Time is modelled as natural numbers (milliseconds since the epoch, as
returned by `Date.now()`).  The event loop is single threaded: a trace is a
chronological list of events (wrapper calls and teardown calls); a scheduled
timer callback runs at its fire time, before any event with a later (or
equal) timestamp, and any timer still pending when the trace ends fires at
its scheduled time (quiescence).
-/

set_option linter.all false

namespace Prelude

/-! ### Debounce (`Util.debounce` in src/util/all.ts)

The wrapper closure owns one timer variable `t`.  Each call clears the
pending timer (if any) and schedules a fresh one `ms` later that runs
`resolve(fn(args))`.  Calls are numbered so that each call's promise can be
tracked; the pending timer remembers which call it belongs to. -/

variable {A R E : Type}

/-- A debounce execution record: the timer of call number `idx` fired at
`time`, running `fn` on `args`. -/
structure DExec (A : Type) where
  idx : Nat
  time : Nat
  args : A
deriving DecidableEq, Repr

/-- Closure state of a debounced wrapper: the pending timer (call index,
fire time, captured arguments), plus the number of calls made so far. -/
structure DebState (A : Type) where
  pend : Option (Nat × Nat × A)
  nextIdx : Nat
deriving DecidableEq, Repr

/-- `debounceFn` body (src/util/all.ts:47-54): clear the pending timer, then
`t = setTimeout(() => resolve(fn(args)), ms)`.  Replacing `pend` models
`clearTimeout(t)` followed by the new `setTimeout`. -/
def debounceFn (ms : Nat) (s : DebState A) (now : Nat) (a : A) : DebState A :=
  { pend := some (s.nextIdx, now + ms, a), nextIdx := s.nextIdx + 1 }

/-- Run the pending timer callback if its fire time has arrived: the timer
fires (one execution) and is no longer live.  The closure variable `t` keeps
the stale handle in the source, but a fired timer is inert, so dropping it is
observationally faithful. -/
def dFireDue (s : DebState A) (now : Nat) : DebState A × List (DExec A) :=
  match s.pend with
  | some (i, ft, a) => if ft ≤ now then ({ s with pend := none }, [⟨i, ft, a⟩]) else (s, [])
  | none => (s, [])

/-- External events of a debounced wrapper instance. -/
inductive DEvent (A : Type) where
  | call (now : Nat) (a : A)
  | teardown (now : Nat)
deriving DecidableEq, Repr

/-- One event step: any due timer callback runs first (it was scheduled for
an earlier moment), then the event itself.  `teardown` is
`() => clearTimeout(t)` (src/util/all.ts:56). -/
def dStep (ms : Nat) (s : DebState A) : DEvent A → DebState A × List (DExec A)
  | .call now a =>
    let p := dFireDue s now
    (debounceFn ms p.1 now a, p.2)
  | .teardown now =>
    let p := dFireDue s now
    ({ p.1 with pend := none }, p.2)

/-- Process a chronological event list, accumulating executions. -/
def dProc (ms : Nat) : DebState A → List (DEvent A) → DebState A × List (DExec A)
  | s, [] => (s, [])
  | s, ev :: evs =>
    let p := dStep ms s ev
    let q := dProc ms p.1 evs
    (q.1, p.2 ++ q.2)

/-- At quiescence any still-pending timer fires at its scheduled time. -/
def dFinal (s : DebState A) : List (DExec A) :=
  match s.pend with
  | some (i, ft, a) => [⟨i, ft, a⟩]
  | none => []

/-- Initial closure state: `let t = undefined`, no calls made yet. -/
def dInit : DebState A := ⟨none, 0⟩

/-- Executions of a complete run of a debounced wrapper. -/
def dRun (ms : Nat) (evs : List (DEvent A)) : List (DExec A) :=
  let p := dProc ms (dInit : DebState A) evs
  p.2 ++ dFinal p.1

/-- Final state of a promise returned by the debounced wrapper. -/
inductive PromiseOutcome (R E : Type) where
  | pending
  | resolved (r : R)
  | rejected (e : E)
deriving DecidableEq, Repr

/-- Outcome of call `i`'s promise given the run's executions.  The executor
only ever calls `resolve(fn(args))`: if the timer never fires the promise
stays pending; if `fn` returns, the promise resolves with that value; if
`fn` throws, `resolve` is never reached and the promise also stays pending
(the source provides no `reject` path). -/
def dOutcome (fn : A → Except E R) (execs : List (DExec A)) (i : Nat) :
    PromiseOutcome R E :=
  match execs.find? (fun e => e.idx == i) with
  | some e =>
    match fn e.args with
    | .ok r => .resolved r
    | .error _ => .pending
  | none => .pending

/-- Errors thrown by `fn` inside timer callbacks surface as uncaught
exceptions in the timer context, tagged with the fire time. -/
def dUncaught (fn : A → Except E R) (execs : List (DExec A)) : List (Nat × E) :=
  execs.filterMap fun e =>
    match fn e.args with
    | .error err => some (e.time, err)
    | .ok _ => none

/-- Each call of the sequence arrives strictly before the timer of the
previous call would fire (i.e. within `ms` of the previous call). -/
def chainedb (ms : Nat) : List (Nat × A) → Bool
  | [] => true
  | [_] => true
  | (t1, _) :: (t2, a2) :: rest => decide (t2 < t1 + ms) && chainedb ms ((t2, a2) :: rest)

/-- Last element of a nonempty list given as head and tail. -/
def lastOf (p : Nat × A) : List (Nat × A) → Nat × A
  | [] => p
  | q :: rest => lastOf q rest

/-! ### Throttle (`Util.throttle` in src/util/all.ts)

The wrapper closure owns `lastCallTime` (initially `0`) and `timeoutId`
(initially `null`). -/

/-- A throttle execution record: `fn` ran on `args` at `time`; `trailing`
tells whether it ran inside the scheduled timer callback (`true`) or
synchronously inside the wrapper call (`false`). -/
structure TExec (A : Type) where
  time : Nat
  args : A
  trailing : Bool
deriving DecidableEq, Repr

/-- Closure state of a throttled wrapper: the last-execution timestamp and
the pending trailing timer (fire time and captured arguments), if any. -/
structure ThState (A : Type) where
  lastCallTime : Nat
  timeoutId : Option (Nat × A)
deriving DecidableEq, Repr

/-- `throttledFn` body (src/util/all.ts:89-107), called at `now = Date.now()`:
if `now - lastCallTime >= interval`, set `lastCallTime = now` and return
`fn(...args)`; otherwise, if no timer is pending, schedule one with delay
`interval - (now - lastCallTime)` capturing the current `args`, and return
`undefined`; if a timer is already pending, do nothing and return
`undefined`.  (For `interval ≥ 1` truncated subtraction agrees with the
source's signed comparison.) -/
def throttledFn (fn : A → R) (interval : Nat) (s : ThState A) (now : Nat) (a : A) :
    ThState A × Option R :=
  if interval ≤ now - s.lastCallTime then
    ({ s with lastCallTime := now }, some (fn a))
  else
    match s.timeoutId with
    | none =>
      ({ s with timeoutId := some (now + (interval - (now - s.lastCallTime)), a) }, none)
    | some _ => (s, none)

/-- The trailing timer callback (src/util/all.ts:98-105), running at its
scheduled fire time: `lastCallTime = Date.now(); timeoutId = null;
fn(...args)`.  The state is updated before `fn` runs. -/
def tFireCallback (fn : A → R) (s : ThState A) : ThState A × Option R :=
  match s.timeoutId with
  | some (ft, b) => ({ lastCallTime := ft, timeoutId := none }, some (fn b))
  | none => (s, none)

/-- Run the trailing callback if its fire time has arrived. -/
def tFireDue (s : ThState A) (now : Nat) : ThState A × List (TExec A) :=
  match s.timeoutId with
  | some (ft, b) => if ft ≤ now then (⟨ft, none⟩, [⟨ft, b, true⟩]) else (s, [])
  | none => (s, [])

/-- `teardown` body (src/util/all.ts:109-114): clear the pending timer and
null the slot; `lastCallTime` is untouched. -/
def tTeardown (s : ThState A) : ThState A :=
  { s with timeoutId := none }

/-- External events of a throttled wrapper instance. -/
inductive TEvent (A : Type) where
  | call (now : Nat) (a : A)
  | teardown (now : Nat)
deriving DecidableEq, Repr

/-- One event step: any due trailing callback runs first, then the event.
A wrapper call that returns a value executed `fn` synchronously. -/
def tStep (interval : Nat) (s : ThState A) : TEvent A → ThState A × List (TExec A)
  | .call now a =>
    let p := tFireDue s now
    let q := throttledFn (fun x => x) interval p.1 now a
    (q.1, p.2 ++ (match q.2 with
      | some x => [⟨now, x, false⟩]
      | none => []))
  | .teardown now =>
    let p := tFireDue s now
    (tTeardown p.1, p.2)

/-- Process a chronological event list, accumulating executions. -/
def tProc (interval : Nat) : ThState A → List (TEvent A) → ThState A × List (TExec A)
  | s, [] => (s, [])
  | s, ev :: evs =>
    let p := tStep interval s ev
    let q := tProc interval p.1 evs
    (q.1, p.2 ++ q.2)

/-- At quiescence any still-pending trailing timer fires at its scheduled
time with its captured arguments. -/
def tFinal (s : ThState A) : List (TExec A) :=
  match s.timeoutId with
  | some (ft, b) => [⟨ft, b, true⟩]
  | none => []

/-- Initial closure state: `lastCallTime = 0`, `timeoutId = null`. -/
def tInit : ThState A := ⟨0, none⟩

/-- Executions of a complete run of a throttled wrapper. -/
def tRun (interval : Nat) (evs : List (TEvent A)) : List (TExec A) :=
  let p := tProc interval (tInit : ThState A) evs
  p.2 ++ tFinal p.1

/-! ### Timer-allocation model (for the single-pending-timer invariant)

A finer model that tracks every live host timer individually: `setTimeout`
allocates a fresh timer id and adds it to the live set, `clearTimeout`
removes it, a firing removes it.  The wrapper logic is the same translation
of src/util/all.ts as above. -/

/-- Debounce closure state over explicit live timers: the live timers
(id, fire time, arguments), the closure variable `t` (last allocated
handle), and the allocation counter. -/
structure DLive (A : Type) where
  live : List (Nat × Nat × A)
  t : Option Nat
  ctr : Nat
deriving DecidableEq, Repr

/-- Events of the allocation-level debounce model: a wrapper call, a live
timer firing, a teardown. -/
inductive DLEvent (A : Type) where
  | call (now : Nat) (a : A)
  | fire (id : Nat)
  | teardown
deriving DecidableEq, Repr

/-- Allocation-level debounce step.  A call runs `if (t) clearTimeout(t)`
and then allocates a new timer; a firing removes the timer from the live
set (the source leaves `t` holding the stale handle); teardown runs
`clearTimeout(t)`. -/
def dlStep (ms : Nat) (s : DLive A) : DLEvent A → DLive A
  | .call now a =>
    let cleared := match s.t with
      | some id => s.live.filter (fun e => e.1 ≠ id)
      | none => s.live
    { live := cleared ++ [(s.ctr, now + ms, a)], t := some s.ctr, ctr := s.ctr + 1 }
  | .fire id => { s with live := s.live.filter (fun e => e.1 ≠ id) }
  | .teardown =>
    { s with live := match s.t with
        | some id => s.live.filter (fun e => e.1 ≠ id)
        | none => s.live }

/-- Initial allocation-level debounce state. -/
def dlInit : DLive A := ⟨[], none, 0⟩

/-- Throttle closure state over explicit live timers. -/
structure TLive (A : Type) where
  live : List (Nat × Nat × A)
  timeoutId : Option Nat
  last : Nat
  ctr : Nat
deriving DecidableEq, Repr

/-- Events of the allocation-level throttle model. -/
inductive TLEvent (A : Type) where
  | call (now : Nat) (a : A)
  | fire (id : Nat) (now : Nat)
  | teardown
deriving DecidableEq, Repr

/-- Allocation-level throttle step.  A call schedules a timer only when
`timeoutId` is null; the timer callback nulls `timeoutId` and records the
fire time; teardown clears the pending timer and nulls the slot. -/
def tlStep (interval : Nat) (s : TLive A) : TLEvent A → TLive A
  | .call now a =>
    if interval ≤ now - s.last then { s with last := now }
    else match s.timeoutId with
      | none =>
        { s with
          live := s.live ++ [(s.ctr, now + (interval - (now - s.last)), a)],
          timeoutId := some s.ctr,
          ctr := s.ctr + 1 }
      | some _ => s
  | .fire id now =>
    { s with
      live := s.live.filter (fun e => e.1 ≠ id),
      timeoutId := if s.timeoutId = some id then none else s.timeoutId,
      last := if s.timeoutId = some id then now else s.last }
  | .teardown =>
    match s.timeoutId with
    | some id => { s with live := s.live.filter (fun e => e.1 ≠ id), timeoutId := none }
    | none => s

/-- Initial allocation-level throttle state. -/
def tlInit : TLive A := ⟨[], none, 0, 0⟩

/-! ### Hash (`Hash.randomXDigitHash` in src/mobile/hash.ts)

Strings are modelled as lists of characters.  The function is parametrised
by the string `Math.random().toString(16)` produced by the host: the model
covers every possible such string. -/

/-- JavaScript `String.prototype.split(".")` on a character list. -/
def splitOnDot : List Char → List (List Char)
  | [] => [[]]
  | c :: rest =>
    let r := splitOnDot rest
    if c = '.' then [] :: r
    else match r with
      | h :: t0 => (c :: h) :: t0
      | [] => [[c]]

/-- `randomXDigitHash` body (src/mobile/hash.ts:35-36) applied to the string
`repr16` that `Math.random().toString(16)` produced:
`repr16.split(".")[1]?.substring(0, length)`.  `none` models the
`undefined` that the optional chain yields when the split has no second
component. -/
def randomXDigitHash (repr16 : List Char) (length : Nat) : Option (List Char) :=
  ((splitOnDot repr16).get? 1).map fun frac => frac.take length

end Prelude

namespace Prelude

variable {A R E : Type}

/-! ### Claim C4: throttle immediate path vs. throttle window -/

/-- C4: a throttled call arriving when at least `interval` has elapsed since
the last recorded execution runs `fn` immediately, records `now` as the
last-execution time, and returns `fn`'s value synchronously; a call arriving
when less than `interval` has elapsed returns `undefined` (no value), does
not run `fn` synchronously, and leaves the last-execution time unchanged. -/
theorem C4_throttle_immediate_or_silent (fn : A → R) (interval : Nat)
    (s : ThState A) (now : Nat) (a : A) :
    (interval ≤ now - s.lastCallTime →
      throttledFn fn interval s now a = ({ s with lastCallTime := now }, some (fn a))) ∧
    (now - s.lastCallTime < interval →
      (throttledFn fn interval s now a).2 = none ∧
      (throttledFn fn interval s now a).1.lastCallTime = s.lastCallTime) := by
  constructor
  · intro h
    simp [throttledFn, h]
  · intro h
    have h2 : ¬ interval ≤ now - s.lastCallTime := by omega
    cases hto : s.timeoutId <;> simp [throttledFn, h2, hto]

/-- Witness for C4 at a concrete input. -/
theorem C4_throttle_immediate_or_silent_witness :
    throttledFn (fun x => x + 1) 1000 (⟨100000, none⟩ : ThState Nat) 101500 7 =
      (⟨101500, none⟩, some 8) ∧
    (throttledFn (fun x => x + 1) 1000 (⟨100000, none⟩ : ThState Nat) 100300 7).2 = none ∧
    (throttledFn (fun x => x + 1) 1000
      (⟨100000, none⟩ : ThState Nat) 100300 7).1.lastCallTime = 100000 :=
  ⟨(C4_throttle_immediate_or_silent (fun x => x + 1) 1000 ⟨100000, none⟩ 101500 7).1
      (by decide),
   ((C4_throttle_immediate_or_silent (fun x => x + 1) 1000 ⟨100000, none⟩ 100300 7).2
      (by decide)).1,
   ((C4_throttle_immediate_or_silent (fun x => x + 1) 1000 ⟨100000, none⟩ 100300 7).2
      (by decide)).2⟩

/-! ### Claim C8: throttle error confinement -/

/-- C8: the throttled wrapper's state transition never depends on `fn`'s
outcome.  On the immediate path the last-execution time is recorded and
`fn`'s result (a thrown error included) is delivered synchronously to the
caller; in the trailing callback the last-execution time is recorded and the
timer slot is cleared before `fn` runs, so a thrown error surfaces at fire
time with the state already updated, and future invocations are evaluated
on their own merits. -/
theorem C8_throttle_error_confinement (interval : Nat) (s : ThState A)
    (now : Nat) (a : A) (err : E) :
    (∀ fn g : A → Except E R,
      (throttledFn fn interval s now a).1 = (throttledFn g interval s now a).1) ∧
    (∀ fn : A → Except E R, fn a = .error err → interval ≤ now - s.lastCallTime →
      (throttledFn fn interval s now a).2 = some (.error err) ∧
      (throttledFn fn interval s now a).1.lastCallTime = now) ∧
    (∀ (fn : A → Except E R) (ft : Nat) (b : A),
      s.timeoutId = some (ft, b) → fn b = .error err →
      tFireCallback fn s = (⟨ft, none⟩, some (.error err))) ∧
    (∀ fn g : A → Except E R, (tFireCallback fn s).1 = (tFireCallback g s).1) := by
  refine ⟨?_, ?_, ?_, ?_⟩
  · intro fn g
    by_cases h : interval ≤ now - s.lastCallTime
    · simp [throttledFn, h]
    · cases hto : s.timeoutId <;> simp [throttledFn, h, hto]
  · intro fn herr h
    simp [throttledFn, h, herr]
  · intro fn ft b hto herr
    simp [tFireCallback, hto, herr]
  · intro fn g
    cases hto : s.timeoutId with
    | none => simp [tFireCallback, hto]
    | some p => obtain ⟨ft, b⟩ := p; simp [tFireCallback, hto]

/-- Witness for C8 at a concrete input. -/
theorem C8_throttle_error_confinement_witness :
    (throttledFn (fun _ => (Except.error 3 : Except Nat Nat)) 1000
        (⟨100000, none⟩ : ThState Nat) 101500 7).2 = some (.error 3) ∧
    (throttledFn (fun _ => (Except.error 3 : Except Nat Nat)) 1000
        (⟨100000, none⟩ : ThState Nat) 101500 7).1.lastCallTime = 101500 ∧
    tFireCallback (fun _ => (Except.error 3 : Except Nat Nat))
        (⟨100000, some (101000, 9)⟩ : ThState Nat) = (⟨101000, none⟩, some (.error 3)) :=
  ⟨((C8_throttle_error_confinement 1000 ⟨100000, none⟩ 101500 7 3).2.1
      (fun _ => Except.error 3) rfl (by decide)).1,
   ((C8_throttle_error_confinement 1000 ⟨100000, none⟩ 101500 7 3).2.1
      (fun _ => Except.error 3) rfl (by decide)).2,
   (C8_throttle_error_confinement 1000 ⟨100000, some (101000, 9)⟩ 101500 7 3).2.2.1
      (fun _ => Except.error 3) 101000 9 rfl rfl⟩

/-! ### Claim C9: throttle teardown leaves the last-execution time alone -/

/-- C9: `teardown` on the throttled wrapper clears only the timer slot and
leaves `lastCallTime` unchanged; hence a call made within `interval` of the
recorded last execution still does not run `fn` immediately even right
after a teardown. -/
theorem C9_teardown_keeps_window (s : ThState A) :
    (tTeardown s).lastCallTime = s.lastCallTime ∧
    (tTeardown s).timeoutId = none ∧
    (∀ (R : Type) (fn : A → R) (interval now : Nat) (a : A),
      now - s.lastCallTime < interval →
      (throttledFn fn interval (tTeardown s) now a).2 = none) := by
  refine ⟨rfl, rfl, ?_⟩
  intro R fn interval now a h
  have h2 : ¬ interval ≤ now - s.lastCallTime := by omega
  simp [throttledFn, tTeardown, h2]

/-- Witness for C9 at a concrete input. -/
theorem C9_teardown_keeps_window_witness :
    (tTeardown (⟨100000, some (101000, 9)⟩ : ThState Nat)).lastCallTime = 100000 ∧
    (tTeardown (⟨100000, some (101000, 9)⟩ : ThState Nat)).timeoutId = none ∧
    (throttledFn (fun x => x) 1000
      (tTeardown (⟨100000, some (101000, 9)⟩ : ThState Nat)) 100600 5).2 = none :=
  ⟨(C9_teardown_keeps_window ⟨100000, some (101000, 9)⟩).1,
   (C9_teardown_keeps_window ⟨100000, some (101000, 9)⟩).2.1,
   (C9_teardown_keeps_window ⟨100000, some (101000, 9)⟩).2.2
      Nat (fun x => x) 1000 100600 5 (by decide)⟩

/-! ### Claim C10: randomXDigitHash length cap and undefined on "0" -/

/-- C10: when the hex representation splits into a whole part and a
fractional part, `randomXDigitHash` returns the first `len` fractional
digits, so the result never exceeds the number of fractional digits the
representation has, and a request longer than that yields a shorter string;
when the representation has no fractional part (`Math.random()` returning
`0` yields the string `"0"`), the function returns `undefined` despite its
declared `string` return type. -/
theorem C10_randomXDigitHash_cap_and_undefined (repr16 frac : List Char) (len : Nat)
    (hfrac : (splitOnDot repr16).get? 1 = some frac) :
    (randomXDigitHash repr16 len = some (frac.take len) ∧
     (frac.take len).length ≤ frac.length ∧
     (frac.length < len → (frac.take len).length < len)) ∧
    randomXDigitHash ['0'] len = none := by
  refine ⟨⟨?_, ?_, ?_⟩, ?_⟩
  · unfold randomXDigitHash
    rw [hfrac, Option.map_some']
  · rw [List.length_take len frac]
    omega
  · intro h
    rw [List.length_take len frac]
    omega
  · simp [randomXDigitHash, splitOnDot]

/-- Witness for C10 at a concrete input. -/
theorem C10_randomXDigitHash_cap_and_undefined_witness :
    (randomXDigitHash ['0', '.', 'a', 'b', 'c'] 9 = some (['a', 'b', 'c'].take 9) ∧
     (['a', 'b', 'c'].take 9).length ≤ ['a', 'b', 'c'].length ∧
     (['a', 'b', 'c'].length < 9 → (['a', 'b', 'c'].take 9).length < 9)) ∧
    randomXDigitHash ['0'] 9 = none :=
  C10_randomXDigitHash_cap_and_undefined ['0', '.', 'a', 'b', 'c'] ['a', 'b', 'c'] 9
    (by decide)

end Prelude

namespace Prelude

variable {A R E : Type}

/-! ### Claim C1: calls during the trailing window -/

/-- C1 (counterexample): interval 1000; call at t=100000 with arg 0 runs
immediately; call at t=100200 with arg 1 schedules the trailing timer for
t=101000; call at t=100600 with arg 2 is dropped.  The trailing execution
carries arg 1 — the argument of the call that scheduled it — not the most
recent arg 2. -/
theorem C1_counterexample_trailing_keeps_first_args :
    tRun 1000 [TEvent.call 100000 (0 : Nat), .call 100200 1, .call 100600 2] =
      [⟨100000, 0, false⟩, ⟨101000, 1, true⟩] := by decide

/-- C1 (amended): a call arriving while a trailing timer is pending (and
not yet due) within the throttle window is ignored entirely: it does not
update the pending arguments and leaves the wrapper state unchanged; the
trailing execution fires with the arguments captured by the call that
scheduled the timer. -/
theorem C1_amended_window_calls_ignored (interval : Nat) (s : ThState A)
    (now t2 ft : Nat) (a b : A)
    (hpend : s.timeoutId = some (ft, b)) (hnotdue : now < ft)
    (hwin : now - s.lastCallTime < interval) :
    tStep interval s (.call now a) = (s, []) ∧
    (ft ≤ t2 → tFireDue s t2 = (⟨ft, none⟩, [⟨ft, b, true⟩])) := by
  constructor
  · have hnd : ¬ ft ≤ now := by omega
    have himm : ¬ interval ≤ now - s.lastCallTime := by omega
    simp [tStep, tFireDue, throttledFn, hpend, hnd, himm]
  · intro h
    simp [tFireDue, hpend, h]

/-- Witness for the amended C1 at a concrete input. -/
theorem C1_amended_window_calls_ignored_witness :
    tStep 1000 (⟨100000, some (101000, 1)⟩ : ThState Nat) (.call 100600 2) =
      (⟨100000, some (101000, 1)⟩, []) ∧
    tFireDue (⟨100000, some (101000, 1)⟩ : ThState Nat) 101000 =
      (⟨101000, none⟩, [⟨101000, 1, true⟩]) :=
  ⟨(C1_amended_window_calls_ignored 1000 ⟨100000, some (101000, 1)⟩ 100600 101000
      101000 2 1 rfl (by decide) (by decide)).1,
   (C1_amended_window_calls_ignored 1000 ⟨100000, some (101000, 1)⟩ 100600 101000
      101000 2 1 rfl (by decide) (by decide)).2 (by decide)⟩

/-! ### Claim C2: debounced wrapper when fn throws -/

/-- C2 (counterexample): debounce 100ms, one call at t=1000 with arg 5 and
an `fn` that throws 7.  The delayed execution runs at t=1100, `fn` throws
before `resolve` is reached, and the returned promise stays pending — it is
not rejected with the error as the claim states. -/
theorem C2_counterexample_throwing_fn_promise_pending :
    dOutcome (fun _ => Except.error 7) (dRun 100 [DEvent.call 1000 (5 : Nat)]) 0 =
      (PromiseOutcome.pending : PromiseOutcome Nat Nat) ∧
    (PromiseOutcome.pending : PromiseOutcome Nat Nat) ≠ .rejected 7 := by decide

/-- C2 (amended): if `fn` throws when the delayed execution of call `i`
runs, call `i`'s promise never settles (stays pending — the executor only
has `resolve`, which is never reached) and the error surfaces as an uncaught
exception in the timer context at the fire time; subsequent invocations
behave normally — the wrapper's scheduling (`dRun`) is computed without any
reference to `fn`'s outcomes. -/
theorem C2_amended_throwing_fn_pending_and_uncaught (fn : A → Except E R)
    (ms : Nat) (evs : List (DEvent A)) (i : Nat) (e : DExec A) (err : E)
    (hfind : (dRun ms evs).find? (fun x => x.idx == i) = some e)
    (herr : fn e.args = .error err) :
    dOutcome fn (dRun ms evs) i = .pending ∧
    (e.time, err) ∈ dUncaught fn (dRun ms evs) := by
  constructor
  · simp [dOutcome, hfind, herr]
  · have hmem := List.mem_of_find?_eq_some hfind
    simp only [dUncaught, List.mem_filterMap]
    exact ⟨e, hmem, by simp [herr]⟩

/-- Witness for the amended C2 at a concrete input. -/
theorem C2_amended_throwing_fn_pending_and_uncaught_witness :
    dOutcome (fun _ => (Except.error 7 : Except Nat Nat))
      (dRun 100 [DEvent.call 1000 (5 : Nat)]) 0 = .pending ∧
    (1100, 7) ∈ dUncaught (fun _ => (Except.error 7 : Except Nat Nat))
      (dRun 100 [DEvent.call 1000 (5 : Nat)]) :=
  C2_amended_throwing_fn_pending_and_uncaught (fun _ => Except.error 7) 100
    [DEvent.call 1000 5] 0 ⟨0, 1100, 5⟩ 7 (by decide) rfl

/-! ### Claim C6: trailing delay arithmetic -/

/-- Any single throttle step either produces no execution and keeps
`lastCallTime`, or its last produced execution happened exactly at the new
`lastCallTime`. -/
theorem tStep_lastExec (interval : Nat) (s : ThState A) (ev : TEvent A) :
    ((tStep interval s ev).2 = [] ∧ (tStep interval s ev).1.lastCallTime = s.lastCallTime) ∨
    (∃ e, ((tStep interval s ev).2).getLast? = some e ∧
      (tStep interval s ev).1.lastCallTime = e.time) := by
  cases ev with
  | teardown now =>
    cases hto : s.timeoutId with
    | none => left; simp [tStep, tFireDue, tTeardown, hto]
    | some p =>
      obtain ⟨ft, b⟩ := p
      by_cases hdue : ft ≤ now
      · right; exact ⟨⟨ft, b, true⟩, by simp [tStep, tFireDue, tTeardown, hto, hdue]⟩
      · left; simp [tStep, tFireDue, tTeardown, hto, hdue]
  | call now a =>
    cases hto : s.timeoutId with
    | none =>
      by_cases himm : interval ≤ now - s.lastCallTime
      · right; exact ⟨⟨now, a, false⟩, by simp [tStep, tFireDue, throttledFn, hto, himm]⟩
      · left; simp [tStep, tFireDue, throttledFn, hto, himm]
    | some p =>
      obtain ⟨ft, b⟩ := p
      by_cases hdue : ft ≤ now
      · by_cases himm : interval ≤ now - ft
        · right
          exact ⟨⟨now, a, false⟩, by simp [tStep, tFireDue, throttledFn, hto, hdue, himm]⟩
        · right
          exact ⟨⟨ft, b, true⟩, by simp [tStep, tFireDue, throttledFn, hto, hdue, himm]⟩
      · by_cases himm : interval ≤ now - s.lastCallTime
        · right
          exact ⟨⟨now, a, false⟩, by simp [tStep, tFireDue, throttledFn, hto, hdue, himm]⟩
        · left; simp [tStep, tFireDue, throttledFn, hto, hdue, himm]

/-- Along any processed trace, `lastCallTime` is either still the starting
value with no execution produced, or the time of the most recent execution. -/
theorem tProc_lastExec (interval : Nat) (evs : List (TEvent A)) :
    ∀ s : ThState A,
    ((tProc interval s evs).2 = [] ∧ (tProc interval s evs).1.lastCallTime = s.lastCallTime) ∨
    (∃ e, ((tProc interval s evs).2).getLast? = some e ∧
      (tProc interval s evs).1.lastCallTime = e.time) := by
  induction evs with
  | nil => intro s; left; simp [tProc]
  | cons ev evs ih =>
    intro s
    rcases tStep_lastExec interval s ev with ⟨h1, h2⟩ | ⟨e, h1, h2⟩ <;>
      rcases ih (tStep interval s ev).1 with ⟨g1, g2⟩ | ⟨f, g1, g2⟩
    · left
      constructor
      · simp [tProc, h1, g1]
      · simp only [tProc]
        rw [g2, h2]
    · right
      refine ⟨f, ?_, ?_⟩
      · simp only [tProc]
        rw [h1, List.nil_append]
        exact g1
      · simp only [tProc]
        exact g2
    · right
      refine ⟨e, ?_, ?_⟩
      · simp only [tProc]
        rw [g1, List.append_nil]
        exact h1
      · simp only [tProc]
        rw [g2, h2]
    · right
      have hne : (tProc interval (tStep interval s ev).1 evs).2 ≠ [] := by
        intro hnil
        rw [hnil] at g1
        simp at g1
      refine ⟨f, ?_, ?_⟩
      · simp only [tProc]
        rw [List.getLast?_append_of_ne_nil _ hne]
        exact g1
      · simp only [tProc]
        exact g2

/-- C6: a call at `now` in the throttle window (no timer pending) schedules
the trailing timer with delay `interval - (now - lastCallTime)`, i.e. to
fire at `lastCallTime + interval`; and along any run `lastCallTime` is
exactly the time of the last actual execution (or 0 when none occurred
yet), so the trailing execution fires exactly `interval` after the last
actual execution of `fn`. -/
theorem C6_trailing_fires_interval_after_last_exec (fn : A → R) (interval : Nat)
    (s : ThState A) (now : Nat) (a : A)
    (hmono : s.lastCallTime ≤ now) (hwin : now - s.lastCallTime < interval)
    (hnone : s.timeoutId = none) :
    (throttledFn fn interval s now a).1.timeoutId = some (s.lastCallTime + interval, a) ∧
    (∀ (B : Type) (evs : List (TEvent B)),
      ((tProc interval tInit evs).2 = [] ∧ (tProc interval tInit evs).1.lastCallTime = 0) ∨
      (∃ e, ((tProc interval tInit evs).2).getLast? = some e ∧
        (tProc interval tInit evs).1.lastCallTime = e.time)) := by
  constructor
  · have himm : ¬ interval ≤ now - s.lastCallTime := by omega
    have harith : now + (interval - (now - s.lastCallTime)) = s.lastCallTime + interval := by
      omega
    simp [throttledFn, himm, hnone, harith]
  · intro B evs
    simpa [tInit] using tProc_lastExec interval evs tInit

/-- Witness for C6 at a concrete input. -/
theorem C6_trailing_fires_interval_after_last_exec_witness :
    (throttledFn (fun x => x) 1000 (⟨100000, none⟩ : ThState Nat) 100200 1).1.timeoutId =
      some (101000, 1) ∧
    (((tProc 1000 tInit [TEvent.call 100000 (0 : Nat)]).2 = [] ∧
        (tProc 1000 tInit [TEvent.call 100000 (0 : Nat)]).1.lastCallTime = 0) ∨
      (∃ e, ((tProc 1000 tInit [TEvent.call 100000 (0 : Nat)]).2).getLast? = some e ∧
        (tProc 1000 tInit [TEvent.call 100000 (0 : Nat)]).1.lastCallTime = e.time)) :=
  ⟨by
    have h := (C6_trailing_fires_interval_after_last_exec (fun x => x) 1000
      (⟨100000, none⟩ : ThState Nat) 100200 1 (by decide) (by decide) rfl).1
    simpa using h,
   (C6_trailing_fires_interval_after_last_exec (fun x => x) 1000
      (⟨100000, none⟩ : ThState Nat) 100200 1 (by decide) (by decide) rfl).2
      Nat [TEvent.call 100000 0]⟩

end Prelude

namespace Prelude

variable {A : Type}

/-! ### Claim C5: at most one live timer per wrapper instance -/

/-- Removing the handle's id empties a live set in which every timer
carries that id. -/
theorem filter_ne_handle_nil {l : List (Nat × Nat × A)} {id : Nat}
    (h : ∀ e ∈ l, e.1 = id) : l.filter (fun e => e.1 ≠ id) = [] := by
  rw [List.filter_eq_nil_iff]
  intro e he
  simp [h e he]

/-- The allocation-level debounce step preserves the invariant that at most
one timer is live and any live timer is the one held in `t`. -/
theorem dlStep_single_timer (ms : Nat) (s : DLive A) (ev : DLEvent A)
    (h1 : s.live.length ≤ 1) (h2 : ∀ e ∈ s.live, s.t = some e.1) :
    (dlStep ms s ev).live.length ≤ 1 ∧
    ∀ e ∈ (dlStep ms s ev).live, (dlStep ms s ev).t = some e.1 := by
  cases ev with
  | call now a =>
    cases ht : s.t with
    | none =>
      have hl : s.live = [] := by
        cases hl : s.live with
        | nil => rfl
        | cons x xs =>
          have hx := h2 x (by rw [hl]; exact List.mem_cons_self x xs)
          rw [ht] at hx
          exact absurd hx (by simp)
      constructor
      · simp [dlStep, ht, hl]
      · intro e he
        simp [dlStep, ht, hl] at he ⊢
        simp [he]
    | some id =>
      have hall : ∀ e ∈ s.live, e.1 = id := fun e he => by
        have hx := h2 e he
        rw [ht] at hx
        exact (Option.some_inj.1 hx).symm
      constructor
      · simp only [dlStep, ht]
        rw [filter_ne_handle_nil hall]
        simp
      · intro e he
        simp only [dlStep, ht] at he ⊢
        rw [filter_ne_handle_nil hall] at he
        simp at he
        simp [he]
  | fire id =>
    refine ⟨?_, ?_⟩
    · simp only [dlStep]
      exact le_trans (List.length_filter_le _ _) h1
    · intro e he
      simp only [dlStep] at he ⊢
      exact h2 e (List.mem_filter.1 he).1
  | teardown =>
    cases ht : s.t with
    | none =>
      refine ⟨?_, ?_⟩
      · simp only [dlStep, ht]
        exact h1
      · intro e he
        simp only [dlStep, ht] at he ⊢
        have hx := h2 e he
        rw [ht] at hx
        exact hx
    | some id =>
      refine ⟨?_, ?_⟩
      · simp only [dlStep, ht]
        exact le_trans (List.length_filter_le _ _) h1
      · intro e he
        simp only [dlStep, ht] at he ⊢
        have hm := List.mem_filter.1 he
        have hx := h2 e hm.1
        rw [ht] at hx
        exact hx

/-- The allocation-level throttle step preserves the invariant that at most
one timer is live and any live timer is the one held in `timeoutId`. -/
theorem tlStep_single_timer (interval : Nat) (s : TLive A) (ev : TLEvent A)
    (h1 : s.live.length ≤ 1) (h2 : ∀ e ∈ s.live, s.timeoutId = some e.1) :
    (tlStep interval s ev).live.length ≤ 1 ∧
    ∀ e ∈ (tlStep interval s ev).live, (tlStep interval s ev).timeoutId = some e.1 := by
  cases ev with
  | call now a =>
    by_cases himm : interval ≤ now - s.last
    · refine ⟨?_, ?_⟩
      · simpa [tlStep, himm] using h1
      · intro e he
        simp only [tlStep, if_pos himm] at he ⊢
        exact h2 e he
    · cases ht : s.timeoutId with
      | none =>
        have hl : s.live = [] := by
          cases hl : s.live with
          | nil => rfl
          | cons x xs =>
            have hx := h2 x (by rw [hl]; exact List.mem_cons_self x xs)
            rw [ht] at hx
            exact absurd hx (by simp)
        constructor
        · simp [tlStep, himm, ht, hl]
        · intro e he
          simp [tlStep, himm, ht, hl] at he ⊢
          simp [he]
      | some id =>
        refine ⟨?_, ?_⟩
        · simpa [tlStep, himm, ht] using h1
        · intro e he
          simp only [tlStep, if_neg himm, ht] at he ⊢
          have hx := h2 e he
          rw [ht] at hx
          exact hx
  | fire id now =>
    refine ⟨?_, ?_⟩
    · simp only [tlStep]
      exact le_trans (List.length_filter_le _ _) h1
    · intro e he
      simp only [tlStep] at he ⊢
      have hm := List.mem_filter.1 he
      have hx := h2 e hm.1
      have hne : e.1 ≠ id := by simpa using hm.2
      rw [if_neg ?hcond]
      · exact hx
      case hcond =>
        intro hcontra
        rw [hcontra] at hx
        exact hne (Option.some_inj.1 hx).symm
  | teardown =>
    cases ht : s.timeoutId with
    | none =>
      refine ⟨?_, ?_⟩
      · simp only [tlStep, ht]
        exact h1
      · intro e he
        simp only [tlStep, ht] at he ⊢
        have hx := h2 e he
        rw [ht] at hx
        exact hx
    | some id =>
      have hall : ∀ e ∈ s.live, e.1 = id := fun e he => by
        have hx := h2 e he
        rw [ht] at hx
        exact (Option.some_inj.1 hx).symm
      refine ⟨?_, ?_⟩
      · simp only [tlStep, ht]
        rw [filter_ne_handle_nil hall]
        simp
      · intro e he
        simp only [tlStep, ht] at he
        rw [filter_ne_handle_nil hall] at he
        simp at he

/-- The single-live-timer invariant holds along any allocation-level
debounce trace. -/
theorem dl_foldl_single_timer (ms : Nat) (evs : List (DLEvent A)) :
    ∀ s : DLive A, s.live.length ≤ 1 → (∀ e ∈ s.live, s.t = some e.1) →
    (evs.foldl (dlStep ms) s).live.length ≤ 1 ∧
    ∀ e ∈ (evs.foldl (dlStep ms) s).live, (evs.foldl (dlStep ms) s).t = some e.1 := by
  induction evs with
  | nil =>
    intro s h1 h2
    exact ⟨h1, h2⟩
  | cons ev evs ih =>
    intro s h1 h2
    have h := dlStep_single_timer ms s ev h1 h2
    simpa [List.foldl_cons] using ih (dlStep ms s ev) h.1 h.2

/-- The single-live-timer invariant holds along any allocation-level
throttle trace. -/
theorem tl_foldl_single_timer (interval : Nat) (evs : List (TLEvent A)) :
    ∀ s : TLive A, s.live.length ≤ 1 → (∀ e ∈ s.live, s.timeoutId = some e.1) →
    (evs.foldl (tlStep interval) s).live.length ≤ 1 ∧
    ∀ e ∈ (evs.foldl (tlStep interval) s).live,
      (evs.foldl (tlStep interval) s).timeoutId = some e.1 := by
  induction evs with
  | nil =>
    intro s h1 h2
    exact ⟨h1, h2⟩
  | cons ev evs ih =>
    intro s h1 h2
    have h := tlStep_single_timer interval s ev h1 h2
    simpa [List.foldl_cons] using ih (tlStep interval s ev) h.1 h.2

/-- C5: for every wrapper instance and every event sequence, at most one
host timer is live at any time — the debounced wrapper clears the old timer
before scheduling a new one, and the throttled wrapper schedules a trailing
timer only when none is pending. -/
theorem C5_at_most_one_pending_timer :
    (∀ (B : Type) (ms : Nat) (evs : List (DLEvent B)),
      (evs.foldl (dlStep ms) dlInit).live.length ≤ 1) ∧
    (∀ (B : Type) (interval : Nat) (evs : List (TLEvent B)),
      (evs.foldl (tlStep interval) tlInit).live.length ≤ 1) := by
  constructor
  · intro B ms evs
    exact (dl_foldl_single_timer ms evs dlInit (by simp [dlInit]) (by simp [dlInit])).1
  · intro B interval evs
    exact (tl_foldl_single_timer interval evs tlInit (by simp [tlInit]) (by simp [tlInit])).1

end Prelude

namespace Prelude

variable {A R E : Type}

/-! ### Claim C3: a rapid burst debounces to a single last-call execution -/

/-- Unfolding equation of `dProc` on a cons cell. -/
theorem dProc_cons (ms : Nat) (s : DebState A) (ev : DEvent A) (evs : List (DEvent A)) :
    dProc ms s (ev :: evs) =
      ((dProc ms (dStep ms s ev).1 evs).1,
        (dStep ms s ev).2 ++ (dProc ms (dStep ms s ev).1 evs).2) := rfl

/-- Processing a chained burst of calls from any state whose pending timer
(if any) is not due at the first call produces no execution: each call
cancels its predecessor's timer, and after the burst only the last call's
timer is pending. -/
theorem dProc_chained (ms : Nat) :
    ∀ (p0 : Nat × A) (rest : List (Nat × A)) (s : DebState A),
    chainedb ms (p0 :: rest) = true →
    (∀ i ft b, s.pend = some (i, ft, b) → p0.1 < ft) →
    dProc ms s ((p0 :: rest).map (fun q => DEvent.call q.1 q.2)) =
      ({ pend := some (s.nextIdx + rest.length, (lastOf p0 rest).1 + ms, (lastOf p0 rest).2),
         nextIdx := s.nextIdx + rest.length + 1 }, []) := by
  intro p0 rest
  induction rest generalizing p0 with
  | nil =>
    intro s hch hnd
    obtain ⟨t0, a0⟩ := p0
    have hstep : dStep ms s (.call t0 a0) = (debounceFn ms s t0 a0, []) := by
      cases hp : s.pend with
      | none => simp [dStep, dFireDue, hp]
      | some w =>
        obtain ⟨i, ft, b⟩ := w
        have hlt := hnd i ft b hp
        have hnd2 : ¬ ft ≤ t0 := by omega
        simp [dStep, dFireDue, hp, hnd2]
    simp [dProc, hstep, debounceFn, lastOf]
  | cons p1 rest2 ih =>
    intro s hch hnd
    obtain ⟨t0, a0⟩ := p0
    obtain ⟨t1, a1⟩ := p1
    have hch1 : t1 < t0 + ms := by
      simp [chainedb] at hch
      exact hch.1
    have hch2 : chainedb ms ((t1, a1) :: rest2) = true := by
      simp [chainedb] at hch ⊢
      exact hch.2
    have hstep : dStep ms s (.call t0 a0) = (debounceFn ms s t0 a0, []) := by
      cases hp : s.pend with
      | none => simp [dStep, dFireDue, hp]
      | some w =>
        obtain ⟨i, ft, b⟩ := w
        have hlt := hnd i ft b hp
        have hnd2 : ¬ ft ≤ t0 := by omega
        simp [dStep, dFireDue, hp, hnd2]
    have hnd1 : ∀ i ft b,
        (debounceFn ms s t0 a0).pend = some (i, ft, b) → ((t1, a1) : Nat × A).1 < ft := by
      intro i ft b hp
      simp [debounceFn] at hp
      omega
    have hrec := ih (t1, a1) (debounceFn ms s t0 a0) hch2 hnd1
    have hxlen : s.nextIdx + (rest2.length + 1) = s.nextIdx + 1 + rest2.length := by omega
    have hstep1 : (dStep ms s (DEvent.call t0 a0)).1 = debounceFn ms s t0 a0 := by
      rw [hstep]
    have hstep2 : (dStep ms s (DEvent.call t0 a0)).2 = [] := by
      rw [hstep]
    rw [List.map_cons, dProc_cons, hstep1, hstep2, hrec]
    simp only [List.length_cons, lastOf, debounceFn, List.nil_append]
    rw [hxlen]

/-- C3: for a burst of N calls each arriving within `ms` of the previous
one, the run has exactly one execution — the last call's, `ms` after the
last call, with the last call's arguments; the last call's promise resolves
with `fn`'s return value, and every earlier call's promise is never
resolved. -/
theorem C3_debounce_last_call_wins (ms : Nat) (fn : A → Except E R) (p0 : Nat × A)
    (rest : List (Nat × A)) (r : R)
    (hch : chainedb ms (p0 :: rest) = true)
    (hok : fn (lastOf p0 rest).2 = .ok r) :
    dRun ms ((p0 :: rest).map (fun q => DEvent.call q.1 q.2)) =
      [⟨rest.length, (lastOf p0 rest).1 + ms, (lastOf p0 rest).2⟩] ∧
    dOutcome fn (dRun ms ((p0 :: rest).map (fun q => DEvent.call q.1 q.2))) rest.length =
      .resolved r ∧
    ∀ i, i < rest.length →
      dOutcome fn (dRun ms ((p0 :: rest).map (fun q => DEvent.call q.1 q.2))) i =
        .pending := by
  have hproc := dProc_chained ms p0 rest dInit hch
    (by intro i ft b h; simp [dInit] at h)
  have hrun : dRun ms ((p0 :: rest).map (fun q => DEvent.call q.1 q.2)) =
      [⟨rest.length, (lastOf p0 rest).1 + ms, (lastOf p0 rest).2⟩] := by
    show (dProc ms dInit ((p0 :: rest).map (fun q => DEvent.call q.1 q.2))).2 ++
        dFinal (dProc ms dInit ((p0 :: rest).map (fun q => DEvent.call q.1 q.2))).1 = _
    rw [hproc]
    simp [dFinal, dInit]
  refine ⟨hrun, ?_, ?_⟩
  · rw [hrun]
    simp [dOutcome, hok]
  · intro i hi
    rw [hrun]
    have hne : (rest.length == i) = false := by
      simp
      omega
    simp [dOutcome, hne]

/-- Witness for C3 at a concrete input: debounce 200ms, calls at t=1000
with 10 and t=1050 with 20 — one execution at t=1250 with 20, whose promise
resolves with 20. -/
theorem C3_debounce_last_call_wins_witness :
    dRun 200 [DEvent.call 1000 (10 : Nat), .call 1050 20] = [⟨1, 1250, 20⟩] ∧
    dOutcome (fun x => (Except.ok x : Except Nat Nat))
      (dRun 200 [DEvent.call 1000 (10 : Nat), .call 1050 20]) 1 = .resolved 20 :=
  ⟨(C3_debounce_last_call_wins 200 (fun x => (Except.ok x : Except Nat Nat))
      (1000, 10) [(1050, 20)] 20 (by decide) rfl).1,
   (C3_debounce_last_call_wins 200 (fun x => (Except.ok x : Except Nat Nat))
      (1000, 10) [(1050, 20)] 20 (by decide) rfl).2.1⟩

end Prelude

namespace Prelude

variable {A : Type}

/-! ### Claim C7: teardown cancels the pending execution, idempotently -/

/-- Running a due timer does not change the call counter. -/
theorem dFireDue_nextIdx (s : DebState A) (now : Nat) :
    (dFireDue s now).1.nextIdx = s.nextIdx := by
  cases hp : s.pend with
  | none => simp [dFireDue, hp]
  | some w =>
    obtain ⟨i, ft, b⟩ := w
    by_cases h : ft ≤ now <;> simp [dFireDue, hp, h]

/-- State after a debounce call: the new call's timer is pending and the
counter advanced. -/
theorem dStep_call_pend (ms : Nat) (s : DebState A) (now : Nat) (a : A) :
    (dStep ms s (.call now a)).1 = ⟨some (s.nextIdx, now + ms, a), s.nextIdx + 1⟩ := by
  simp [dStep, debounceFn, dFireDue_nextIdx]

/-- State after a debounce teardown: no timer pending, counter unchanged. -/
theorem dStep_teardown_state (ms : Nat) (s : DebState A) (now : Nat) :
    (dStep ms s (.teardown now)).1 = ⟨none, s.nextIdx⟩ := by
  cases hp : s.pend with
  | none => simp [dStep, dFireDue, hp]
  | some w =>
    obtain ⟨i, ft, b⟩ := w
    by_cases h : ft ≤ now <;> simp [dStep, dFireDue, hp, h]

/-- An execution emitted by the due-timer check comes from the pending
timer. -/
theorem dFireDue_exec_src (s : DebState A) (now : Nat) (e : DExec A)
    (h : e ∈ (dFireDue s now).2) : ∃ ft b, s.pend = some (e.idx, ft, b) := by
  cases hp : s.pend with
  | none => simp [dFireDue, hp] at h
  | some w =>
    obtain ⟨i, ft, b⟩ := w
    by_cases hd : ft ≤ now
    · simp [dFireDue, hp, hd] at h
      subst h
      exact ⟨ft, b, rfl⟩
    · simp [dFireDue, hp, hd] at h

/-- `dProc` over an appended trace splits into two passes. -/
theorem dProc_append (ms : Nat) (l1 l2 : List (DEvent A)) :
    ∀ s, dProc ms s (l1 ++ l2) =
      ((dProc ms (dProc ms s l1).1 l2).1,
        (dProc ms s l1).2 ++ (dProc ms (dProc ms s l1).1 l2).2) := by
  induction l1 with
  | nil => intro s; simp [dProc]
  | cons ev l1 ih =>
    intro s
    simp only [List.cons_append, dProc_cons, ih, List.append_assoc]

/-- A timer pending after a processed trace either was already pending with
the same call index at the start, or belongs to a call made during the
trace (index at least the starting counter). -/
theorem dProc_pend_src (ms : Nat) (evs : List (DEvent A)) :
    ∀ (s : DebState A) (i ft : Nat) (b : A),
      (dProc ms s evs).1.pend = some (i, ft, b) →
      (∃ ft0 b0, s.pend = some (i, ft0, b0)) ∨ s.nextIdx ≤ i := by
  induction evs with
  | nil =>
    intro s i ft b h
    left
    exact ⟨ft, b, by simpa [dProc] using h⟩
  | cons ev evs ih =>
    intro s i ft b h
    rw [dProc_cons] at h
    rcases ih (dStep ms s ev).1 i ft b h with ⟨ft0, b0, hp⟩ | hle
    · cases ev with
      | call now a =>
        rw [dStep_call_pend] at hp
        simp at hp
        right
        omega
      | teardown now =>
        rw [dStep_teardown_state] at hp
        simp at hp
    · cases ev with
      | call now a =>
        rw [dStep_call_pend] at hle
        simp at hle
        right
        omega
      | teardown now =>
        rw [dStep_teardown_state] at hle
        right
        simpa using hle
  
/-- Any execution of a processed trace (quiescent firing included) either
fires the timer that was pending at the start or belongs to a call made
during the trace. -/
theorem dProc_exec_src (ms : Nat) (evs : List (DEvent A)) :
    ∀ (s : DebState A) (e : DExec A),
      (e ∈ (dProc ms s evs).2 ∨ e ∈ dFinal (dProc ms s evs).1) →
      (∃ ft b, s.pend = some (e.idx, ft, b)) ∨ s.nextIdx ≤ e.idx := by
  induction evs with
  | nil =>
    intro s e h
    rcases h with h | h
    · simp [dProc] at h
    · left
      simp only [dProc] at h
      cases hp : s.pend with
      | none => rw [dFinal, hp] at h; simp at h
      | some w =>
        obtain ⟨i, ft, b⟩ := w
        rw [dFinal, hp] at h
        simp at h
        subst h
        exact ⟨ft, b, rfl⟩
  | cons ev evs ih =>
    intro s e h
    have h2 : e ∈ (dStep ms s ev).2 ∨
        (e ∈ (dProc ms (dStep ms s ev).1 evs).2 ∨
          e ∈ dFinal (dProc ms (dStep ms s ev).1 evs).1) := by
      rcases h with h | h
      · rw [dProc_cons] at h
        rcases List.mem_append.1 h with h | h
        · exact Or.inl h
        · exact Or.inr (Or.inl h)
      · rw [dProc_cons] at h
        exact Or.inr (Or.inr h)
    rcases h2 with hstep | hcont
    · left
      cases ev with
      | call now a =>
        simp only [dStep] at hstep
        exact dFireDue_exec_src s now e hstep
      | teardown now =>
        simp only [dStep] at hstep
        exact dFireDue_exec_src s now e hstep
    · rcases ih (dStep ms s ev).1 e hcont with ⟨ft, b, hp⟩ | hle
      · cases ev with
        | call now a =>
          rw [dStep_call_pend] at hp
          simp at hp
          right
          omega
        | teardown now =>
          rw [dStep_teardown_state] at hp
          simp at hp
      · cases ev with
        | call now a =>
          rw [dStep_call_pend] at hle
          simp at hle
          right
          omega
        | teardown now =>
          rw [dStep_teardown_state] at hle
          right
          simpa using hle

/-- The pending timer's call index always stays below the call counter. -/
theorem dProc_inv (ms : Nat) (evs : List (DEvent A)) :
    ∀ (s : DebState A),
      (∀ i ft b, s.pend = some (i, ft, b) → i < s.nextIdx) →
      ∀ i ft b, (dProc ms s evs).1.pend = some (i, ft, b) →
        i < (dProc ms s evs).1.nextIdx := by
  induction evs with
  | nil =>
    intro s hinv i ft b hp
    exact hinv i ft b hp
  | cons ev evs ih =>
    intro s hinv i ft b hp
    rw [dProc_cons] at hp
    have hinv2 : ∀ i2 ft2 b2, (dStep ms s ev).1.pend = some (i2, ft2, b2) →
        i2 < (dStep ms s ev).1.nextIdx := by
      cases ev with
      | call now a =>
        intro i2 ft2 b2 hh
        rw [dStep_call_pend] at hh ⊢
        simp at hh ⊢
        omega
      | teardown now =>
        intro i2 ft2 b2 hh
        rw [dStep_teardown_state] at hh
        simp at hh
    exact ih (dStep ms s ev).1 hinv2 i ft b hp

/-- A call whose timer is still pending at the end of a processed trace was
never executed during that trace. -/
theorem dProc_pend_not_executed (ms : Nat) (evs : List (DEvent A)) :
    ∀ (s : DebState A),
      (∀ i ft b, s.pend = some (i, ft, b) → i < s.nextIdx) →
      ∀ (e : DExec A), e ∈ (dProc ms s evs).2 →
      ∀ i ft b, (dProc ms s evs).1.pend = some (i, ft, b) → e.idx ≠ i := by
  induction evs with
  | nil =>
    intro s hinv e he
    simp [dProc] at he
  | cons ev evs ih =>
    intro s hinv e he i ft b hp
    rw [dProc_cons] at he hp
    have hinv2 : ∀ i2 ft2 b2, (dStep ms s ev).1.pend = some (i2, ft2, b2) →
        i2 < (dStep ms s ev).1.nextIdx := by
      cases ev with
      | call now a =>
        intro i2 ft2 b2 hh
        rw [dStep_call_pend] at hh ⊢
        simp at hh ⊢
        omega
      | teardown now =>
        intro i2 ft2 b2 hh
        rw [dStep_teardown_state] at hh
        simp at hh
    rcases List.mem_append.1 he with he1 | he2
    · have hidx : e.idx < s.nextIdx := by
        cases ev with
        | call now a =>
          simp only [dStep] at he1
          obtain ⟨ft0, b0, hpe⟩ := dFireDue_exec_src s now e he1
          exact hinv e.idx ft0 b0 hpe
        | teardown now =>
          simp only [dStep] at he1
          obtain ⟨ft0, b0, hpe⟩ := dFireDue_exec_src s now e he1
          exact hinv e.idx ft0 b0 hpe
      rcases dProc_pend_src ms evs (dStep ms s ev).1 i ft b hp with ⟨ft1, b1, hp1⟩ | hle
      · cases ev with
        | call now a =>
          rw [dStep_call_pend] at hp1
          simp at hp1
          omega
        | teardown now =>
          rw [dStep_teardown_state] at hp1
          simp at hp1
      · cases ev with
        | call now a =>
          rw [dStep_call_pend] at hle
          simp at hle
          omega
        | teardown now =>
          rw [dStep_teardown_state] at hle
          simp at hle
          omega
    · exact ih (dStep ms s ev).1 hinv2 e he2 i ft b hp

/-- A debounce teardown from a state with no pending timer is a no-op. -/
theorem dStep_teardown_noop (ms : Nat) (s : DebState A) (td : Nat)
    (h : s.pend = none) : dStep ms s (.teardown td) = (s, []) := by
  obtain ⟨p, n⟩ := s
  cases p with
  | none => rfl
  | some w => simp at h

end Prelude

namespace Prelude

variable {A : Type}

/-- Unfolding equation of `tProc` on a cons cell. -/
theorem tProc_cons (interval : Nat) (s : ThState A) (ev : TEvent A)
    (evs : List (TEvent A)) :
    tProc interval s (ev :: evs) =
      ((tProc interval (tStep interval s ev).1 evs).1,
        (tStep interval s ev).2 ++ (tProc interval (tStep interval s ev).1 evs).2) := rfl

/-- `tProc` over an appended trace splits into two passes. -/
theorem tProc_append (interval : Nat) (l1 l2 : List (TEvent A)) :
    ∀ s, tProc interval s (l1 ++ l2) =
      ((tProc interval (tProc interval s l1).1 l2).1,
        (tProc interval s l1).2 ++ (tProc interval (tProc interval s l1).1 l2).2) := by
  induction l1 with
  | nil => intro s; simp [tProc]
  | cons ev l1 ih =>
    intro s
    simp only [List.cons_append, tProc_cons, ih, List.append_assoc]

/-- A throttle teardown with no timer pending returns the state unchanged. -/
theorem tTeardown_id (s : ThState A) (h : s.timeoutId = none) : tTeardown s = s := by
  obtain ⟨last, to0⟩ := s
  cases to0 with
  | none => rfl
  | some p => simp at h

/-- A throttle teardown event from a state with no pending timer is a no-op. -/
theorem tStep_teardown_noop (interval : Nat) (s : ThState A) (td : Nat)
    (h : s.timeoutId = none) : tStep interval s (.teardown td) = (s, []) := by
  simp [tStep, tFireDue, h, tTeardown_id s h]

/-- After a throttle teardown event no timer is pending. -/
theorem tStep_teardown_state (interval : Nat) (s : ThState A) (td : Nat) :
    (tStep interval s (TEvent.teardown td)).1.timeoutId = none := by
  cases hto : s.timeoutId with
  | none => simp [tStep, tFireDue, tTeardown, hto]
  | some w =>
    obtain ⟨ft, b⟩ := w
    by_cases h : ft ≤ td <;> simp [tStep, tFireDue, tTeardown, hto, h]

/-- Processing only teardown events from a timer-free state produces no
execution and changes nothing. -/
theorem tProc_teardowns_only (interval : Nat) (evs : List (TEvent A)) :
    (∀ e ∈ evs, ∀ now a, e ≠ TEvent.call now a) →
    ∀ (s : ThState A), s.timeoutId = none → tProc interval s evs = (s, []) := by
  induction evs with
  | nil => intro _ s _; rfl
  | cons ev evs ih =>
    intro hnc s h
    cases ev with
    | call now a => exact absurd rfl (hnc _ (List.mem_cons_self _ _) now a)
    | teardown now =>
      have hstep := tStep_teardown_noop interval s now h
      have h1 : (tStep interval s (TEvent.teardown now)).1 = s := by rw [hstep]
      have h2 : (tStep interval s (TEvent.teardown now)).2 = [] := by rw [hstep]
      rw [tProc_cons, h1, h2,
        ih (fun e he now2 a => hnc e (List.mem_cons_of_mem _ he) now2 a) s h]
      rfl

/-- C7: for both wrappers, calling `teardown` while a scheduled execution
is pending and not yet due cancels it for good — the debounced wrapper
never runs `fn` for that pending call no matter what happens afterwards,
and the throttled wrapper's cancelled trailing execution never fires
(provided no later call schedules a new one); `teardown` is idempotent and
is a harmless no-op when nothing is pending. -/
theorem C7_teardown_cancels_pending :
    (∀ (B : Type) (ms : Nat) (evs1 evs2 : List (DEvent B)) (td i ft : Nat) (b : B),
      (dProc ms (dInit : DebState B) evs1).1.pend = some (i, ft, b) → td < ft →
      ∀ e ∈ dRun ms (evs1 ++ DEvent.teardown td :: evs2), e.idx ≠ i) ∧
    (∀ (B : Type) (ms : Nat) (s : DebState B) (td td2 : Nat),
      dStep ms (dStep ms s (DEvent.teardown td)).1 (DEvent.teardown td2) =
        ((dStep ms s (DEvent.teardown td)).1, [])) ∧
    (∀ (B : Type) (ms : Nat) (s : DebState B) (td : Nat), s.pend = none →
      dStep ms s (DEvent.teardown td) = (s, [])) ∧
    (∀ (B : Type) (interval : Nat) (evs1 evs2 : List (TEvent B)) (td ft : Nat) (b : B),
      (tProc interval (tInit : ThState B) evs1).1.timeoutId = some (ft, b) → td < ft →
      (∀ e ∈ evs2, ∀ now a, e ≠ TEvent.call now a) →
      tRun interval (evs1 ++ TEvent.teardown td :: evs2) =
        (tProc interval (tInit : ThState B) evs1).2) ∧
    (∀ (B : Type) (interval : Nat) (s : ThState B) (td td2 : Nat),
      tStep interval (tStep interval s (TEvent.teardown td)).1 (TEvent.teardown td2) =
        ((tStep interval s (TEvent.teardown td)).1, [])) ∧
    (∀ (B : Type) (interval : Nat) (s : ThState B) (td : Nat), s.timeoutId = none →
      tStep interval s (TEvent.teardown td) = (s, [])) := by
  refine ⟨?_, ?_, ?_, ?_, ?_, ?_⟩
  · intro B ms evs1 evs2 td i ft b hpend hlt e he
    have inv0 : ∀ j ft0 b0, (dInit : DebState B).pend = some (j, ft0, b0) →
        j < (dInit : DebState B).nextIdx := by
      intro j ft0 b0 h
      simp [dInit] at h
    have hilt : i < (dProc ms (dInit : DebState B) evs1).1.nextIdx :=
      dProc_inv ms evs1 dInit inv0 i ft b hpend
    have hnd : ¬ ft ≤ td := by omega
    have hstep : dStep ms (dProc ms (dInit : DebState B) evs1).1 (DEvent.teardown td) =
        ({ (dProc ms (dInit : DebState B) evs1).1 with pend := none }, []) := by
      simp [dStep, dFireDue, hpend, hnd]
    have hrun : dRun ms (evs1 ++ DEvent.teardown td :: evs2) =
        (dProc ms (dInit : DebState B) evs1).2 ++
          ((dProc ms { (dProc ms (dInit : DebState B) evs1).1 with pend := none } evs2).2 ++
            dFinal
              (dProc ms { (dProc ms (dInit : DebState B) evs1).1 with pend := none } evs2).1) := by
      show (dProc ms (dInit : DebState B) (evs1 ++ DEvent.teardown td :: evs2)).2 ++
          dFinal (dProc ms (dInit : DebState B) (evs1 ++ DEvent.teardown td :: evs2)).1 = _
      rw [dProc_append ms evs1 (DEvent.teardown td :: evs2) dInit, dProc_cons, hstep]
      simp
    rw [hrun] at he
    rcases List.mem_append.1 he with he1 | he23
    · exact dProc_pend_not_executed ms evs1 dInit inv0 e he1 i ft b hpend
    · rcases List.mem_append.1 he23 with he2 | he3
      · rcases dProc_exec_src ms evs2
            { (dProc ms (dInit : DebState B) evs1).1 with pend := none } e (Or.inl he2) with
          ⟨ft0, b0, hp0⟩ | hle
        · simp at hp0
        · simp at hle
          omega
      · rcases dProc_exec_src ms evs2
            { (dProc ms (dInit : DebState B) evs1).1 with pend := none } e (Or.inr he3) with
          ⟨ft0, b0, hp0⟩ | hle
        · simp at hp0
        · simp at hle
          omega
  · intro B ms s td td2
    apply dStep_teardown_noop
    rw [dStep_teardown_state]
  · intro B ms s td h
    exact dStep_teardown_noop ms s td h
  · intro B interval evs1 evs2 td ft b hpend hlt hnc
    have hnd : ¬ ft ≤ td := by omega
    have hstep : tStep interval (tProc interval (tInit : ThState B) evs1).1
        (TEvent.teardown td) =
        ({ (tProc interval (tInit : ThState B) evs1).1 with timeoutId := none }, []) := by
      simp [tStep, tFireDue, tTeardown, hpend, hnd]
    have hrest : tProc interval
        { (tProc interval (tInit : ThState B) evs1).1 with timeoutId := none } evs2 =
        ({ (tProc interval (tInit : ThState B) evs1).1 with timeoutId := none }, []) :=
      tProc_teardowns_only interval evs2 hnc _ rfl
    show (tProc interval (tInit : ThState B) (evs1 ++ TEvent.teardown td :: evs2)).2 ++
        tFinal (tProc interval (tInit : ThState B) (evs1 ++ TEvent.teardown td :: evs2)).1 = _
    rw [tProc_append interval evs1 (TEvent.teardown td :: evs2) tInit, tProc_cons, hstep, hrest]
    simp [tFinal]
  · intro B interval s td td2
    apply tStep_teardown_noop
    exact tStep_teardown_state interval s td
  · intro B interval s td h
    exact tStep_teardown_noop interval s td h

/-- Witness for C7 at concrete inputs, one per conjunct. -/
theorem C7_teardown_cancels_pending_witness :
    (⟨0, 1500, 5⟩ : DExec Nat).idx ≠ 1 ∧
    tRun 1000 ([TEvent.call 100000 (0 : Nat), .call 100200 1] ++ TEvent.teardown 100600 :: []) =
      (tProc 1000 (tInit : ThState Nat) [TEvent.call 100000 0, .call 100200 1]).2 ∧
    dStep 500 (dStep 500 (⟨some (0, 1500, 5), 1⟩ : DebState Nat) (DEvent.teardown 1200)).1
        (DEvent.teardown 1300) =
      ((dStep 500 (⟨some (0, 1500, 5), 1⟩ : DebState Nat) (DEvent.teardown 1200)).1, []) ∧
    dStep 500 (⟨none, 3⟩ : DebState Nat) (DEvent.teardown 42) =
      ((⟨none, 3⟩ : DebState Nat), []) ∧
    tStep 1000 (tStep 1000 (⟨100000, some (101000, 9)⟩ : ThState Nat)
        (TEvent.teardown 100600)).1 (TEvent.teardown 100700) =
      ((tStep 1000 (⟨100000, some (101000, 9)⟩ : ThState Nat) (TEvent.teardown 100600)).1, []) ∧
    tStep 1000 (⟨100000, none⟩ : ThState Nat) (TEvent.teardown 42) =
      ((⟨100000, none⟩ : ThState Nat), []) :=
  ⟨C7_teardown_cancels_pending.1 Nat 500 [DEvent.call 1000 5, DEvent.call 1600 6] []
      1700 1 2100 6 (by decide) (by decide) ⟨0, 1500, 5⟩ (by decide),
   C7_teardown_cancels_pending.2.2.2.1 Nat 1000 [TEvent.call 100000 0, .call 100200 1] []
      100600 101000 1 (by decide) (by decide)
      (fun e he now a => absurd he (List.not_mem_nil e)),
   C7_teardown_cancels_pending.2.1 Nat 500 ⟨some (0, 1500, 5), 1⟩ 1200 1300,
   C7_teardown_cancels_pending.2.2.1 Nat 500 ⟨none, 3⟩ 42 rfl,
   C7_teardown_cancels_pending.2.2.2.2.1 Nat 1000 ⟨100000, some (101000, 9)⟩ 100600 100700,
   C7_teardown_cancels_pending.2.2.2.2.2 Nat 1000 ⟨100000, none⟩ 42 rfl⟩

end Prelude
